import Mathlib

/-!
Verification of the chunked transcription and idempotent batch-processing
pipeline of `app.py` (audio-to-notes).

The embedding models the pure, decision-making parts of the code directly
(segment geometry, skip logic, sentinel substitution) and models effectful
code (ffmpeg invocations, the speech engine, the summarization API, the
filesystem) by explicit state passing over an oracle environment `Env`:
every external call is a deterministic function supplied by the
environment, and filesystem effects are recorded in explicit state
records.  Durations are rationals (wav durations are `n_frames / framerate`,
an exact rational; Python's binary floats are exact on the values at stake
here and the claims are about the real-valued geometry).
-/

/-- Lowercasing of a character-by-character string, modelling Python's
`str.lower()` as used on ASCII extension strings (`Path.suffix.lower()`,
`app.py` lines 190 and 372). -/
def strLower (s : String) : String := String.mk (s.data.map Char.toLower)

/-- Boolean string prefix test on the underlying character lists; models
the constant part of a glob pattern anchored at the start. -/
def strStarts (p s : String) : Bool := p.data.isPrefixOf s.data

/-- Boolean string suffix test on the underlying character lists; models
Python's `str.endswith` and the constant tail of a glob pattern. -/
def strEnds (p s : String) : Bool := p.data.isSuffixOf s.data

/-- The fixed allow-list of input extensions, `SUPPORTED_EXTENSIONS` in
`app.py` lines 17-28. -/
def SUPPORTED_EXTENSIONS : List String :=
  [".wav", ".flac", ".mp4a", ".mp3", ".ogg", ".m4a", ".aac", ".wma", ".opus", ".mp4"]

/-- The default chunk length, `DEFAULT_CHUNK_LENGTH_SEC` in `app.py` line 31. -/
def DEFAULT_CHUNK_LENGTH_SEC : ℕ := 40

/-- An audio asset in the scanned directory: the file stem
(`Path.stem`, the base title) and its extension (`Path.suffix`,
including the leading dot). -/
structure Asset where
  stem : String
  ext : String
deriving DecidableEq, Repr

/-- The file name of an asset, stem followed by extension. -/
def Asset.name (a : Asset) : String := a.stem ++ a.ext

/-- Error taxonomy of the pipeline: the Python exceptions that the code
raises or propagates, collapsed to the cases the control flow
distinguishes. -/
inductive Err where
  | decode
  | segmentExtraction (i : ℕ)
  | engine (msg : String)
  | summarization (msg : String)
  | conversionFailed
  | missingInput
  | unsupportedFormat
deriving DecidableEq, Repr

/-- One call to the speech-to-text engine (`CanaryTranscriber.transcribe`):
either on the whole (converted) asset, or on segment `i` of it. -/
inductive Call where
  | whole (a : Asset)
  | seg (a : Asset) (i : ℕ)
deriving DecidableEq, Repr

/-- Oracle environment: deterministic models of every external collaborator
touched by the pipeline (wave probing, ffmpeg, the speech engine, the
summarization API, input-file existence). -/
structure Env where
  /-- Whether the asset's source file exists (`input_path.exists()` and
  `is_file()`, `app.py` line 369). -/
  assetExists : Asset → Bool
  /-- Result of `get_wav_duration_seconds` on the canonical wav of the
  asset: `some d` for a successful probe of duration `d` seconds, `none`
  when `wave.open`/framerate validation raises (`app.py` lines 208-217). -/
  probe : Asset → Option ℚ
  /-- Whether the ffmpeg transcode of a non-wav input succeeds
  (`convert_to_wav`, `app.py` lines 187-205, `check=True`). -/
  convertOk : Asset → Bool
  /-- Whether the ffmpeg extraction of segment `i` succeeds
  (`split_wav` loop, `app.py` lines 227-243, `check=True`). -/
  extractOk : Asset → ℕ → Bool
  /-- Speech-engine result on the whole converted asset. -/
  wholeText : Asset → Except Err String
  /-- Speech-engine result on segment `i` of the asset. -/
  segText : Asset → ℕ → Except Err String
  /-- Summarization-engine result on a transcript: `Except.error` when the
  API call raises, otherwise the `message.content` field, which may be
  missing (`none`) or any string including the empty one
  (`generate_notes`, `app.py` lines 280-343). -/
  summarize : String → Except Err (Option String)

/-- Number of segments `split_wav` materializes:
`chunks_needed = max(1, math.ceil(duration / chunk_length_sec))`
(`app.py` line 223). -/
def chunks_needed (d : ℚ) (m : ℕ) : ℕ := max 1 (⌈d / (m : ℚ)⌉).toNat

/-- One materialized segment: its requested start offset `i * m` seconds
and the length actually emitted, the nominal `-t m` clipped by ffmpeg to
the remaining tail `d - i * m`. -/
structure Seg where
  start : ℚ
  len : ℚ
deriving DecidableEq, Repr

/-- The segments `split_wav` requests: for `i` in `range(chunks_needed)`,
start offset `i * chunk_length_sec` and nominal length `chunk_length_sec`
(`app.py` lines 227-243), with the final emitted length clipped to the tail. -/
def segments (d : ℚ) (m : ℕ) : List Seg :=
  (List.range (chunks_needed d m)).map
    (fun (i : ℕ) => { start := (i : ℚ) * m, len := min (m : ℚ) (d - (i : ℚ) * m) })

/-- Index of the first segment whose ffmpeg extraction fails, if any
(`subprocess.run(..., check=True)` raising inside the loop of `split_wav`). -/
def firstExtractFail (env : Env) (a : Asset) (k : ℕ) : Option ℕ :=
  (List.range k).find? (fun i => !env.extractOk a i)

/-- `split_wav` (`app.py` lines 220-248): probe the duration (the probe
exception propagates before the workspace is created), create the
workspace, extract each chunk; on the first extraction failure remove the
workspace (`shutil.rmtree`) and propagate.  Returns the outcome together
with whether the temporary workspace directory is on disk afterwards. -/
def split_wav (env : Env) (a : Asset) (m : ℕ) : Except Err (List Seg) × Bool :=
  match env.probe a with
  | none => (Except.error Err.decode, false)
  | some d =>
    match firstExtractFail env a (chunks_needed d m) with
    | some j => (Except.error (Err.segmentExtraction j), false)
    | none => (Except.ok (segments d m), true)

/-- The segment count is always at least one. -/
theorem chunks_needed_pos (d : ℚ) (m : ℕ) : 1 ≤ chunks_needed d m := le_max_left 1 _

/-- For a positive duration the `max 1` clamp is inactive: the segment
count is exactly the ceiling of `d / m`. -/
theorem chunks_needed_eq_ceil (d : ℚ) (m : ℕ) (hd : 0 < d) (hm : 0 < m) :
    (chunks_needed d m : ℤ) = ⌈d / (m : ℚ)⌉ := by
  have hmQ : (0 : ℚ) < m := by exact_mod_cast hm
  have hc : 0 < ⌈d / (m : ℚ)⌉ := Int.ceil_pos.mpr (div_pos hd hmQ)
  unfold chunks_needed
  omega

/-- Rational-cast form of `chunks_needed_eq_ceil`. -/
theorem chunks_cast_eq (d : ℚ) (m : ℕ) (hd : 0 < d) (hm : 0 < m) :
    (chunks_needed d m : ℚ) = ((⌈d / (m : ℚ)⌉ : ℤ) : ℚ) := by
  exact_mod_cast congrArg (fun z : ℤ => (z : ℚ)) (chunks_needed_eq_ceil d m hd hm)

/-- The requested segments reach the end of the asset: `d ≤ k * m`. -/
theorem le_chunks_mul (d : ℚ) (m : ℕ) (hd : 0 < d) (hm : 0 < m) :
    d ≤ (chunks_needed d m : ℚ) * m := by
  have hmQ : (0 : ℚ) < m := by exact_mod_cast hm
  have h1 : d / (m : ℚ) ≤ (⌈d / (m : ℚ)⌉ : ℚ) := Int.le_ceil _
  rw [chunks_cast_eq d m hd hm]
  exact (div_le_iff₀ hmQ).mp h1

/-- The last requested segment starts strictly inside the asset:
`(k - 1) * m < d`. -/
theorem chunks_pred_mul_lt (d : ℚ) (m : ℕ) (hd : 0 < d) (hm : 0 < m) :
    ((chunks_needed d m : ℚ) - 1) * m < d := by
  have hmQ : (0 : ℚ) < m := by exact_mod_cast hm
  have h1 : ((⌈d / (m : ℚ)⌉ : ℚ)) < d / (m : ℚ) + 1 := Int.ceil_lt_add_one _
  rw [chunks_cast_eq d m hd hm]
  have h3 : ((⌈d / (m : ℚ)⌉ : ℚ) - 1) < d / (m : ℚ) := by linarith
  exact (lt_div_iff₀ hmQ).mp h3

/-- There are exactly `chunks_needed d m` segments. -/
theorem segments_length (d : ℚ) (m : ℕ) :
    (segments d m).length = chunks_needed d m := by
  simp only [segments, List.length_map, List.length_range]

/-- Explicit form of the `i`-th segment. -/
theorem segments_get (d : ℚ) (m : ℕ) (i : ℕ) (h : i < (segments d m).length) :
    (segments d m).get ⟨i, h⟩
      = { start := (i : ℚ) * m, len := min (m : ℚ) (d - (i : ℚ) * m) } := by
  simp only [segments, List.get_eq_getElem, List.getElem_map, List.getElem_range]

/-- Every segment except possibly the last is emitted at full nominal
length `m`: the tail remaining before the last segment exceeds `m`. -/
theorem seg_len_full (d : ℚ) (m : ℕ) (hd : 0 < d) (hm : 0 < m) (i : ℕ)
    (h : i + 1 < chunks_needed d m) :
    min (m : ℚ) (d - (i : ℚ) * m) = m := by
  have hmQ : (0 : ℚ) ≤ m := by positivity
  have hk : i + 2 ≤ chunks_needed d m := h
  have hkQ : (i : ℚ) + 2 ≤ (chunks_needed d m : ℚ) := by exact_mod_cast hk
  have h2 : ((i : ℚ) + 1) * m ≤ ((chunks_needed d m : ℚ) - 1) * m :=
    mul_le_mul_of_nonneg_right (by linarith) hmQ
  have h3 : ((i : ℚ) + 1) * m < d := lt_of_le_of_lt h2 (chunks_pred_mul_lt d m hd hm)
  have h4 : ((i : ℚ) + 1) * m = (i : ℚ) * m + m := by ring
  rw [h4] at h3
  exact min_eq_left (by linarith)

/-- Every requested segment starts strictly before the end of the asset,
so its emitted length is positive. -/
theorem seg_tail_pos (d : ℚ) (m : ℕ) (hd : 0 < d) (hm : 0 < m) (i : ℕ)
    (h : i < chunks_needed d m) :
    0 < d - (i : ℚ) * m := by
  have hmQ : (0 : ℚ) ≤ m := by positivity
  have hkQ : (i : ℚ) + 1 ≤ (chunks_needed d m : ℚ) := by exact_mod_cast h
  have h2 : (i : ℚ) * m ≤ ((chunks_needed d m : ℚ) - 1) * m :=
    mul_le_mul_of_nonneg_right (by linarith) hmQ
  have h3 : (i : ℚ) * m < d := lt_of_le_of_lt h2 (chunks_pred_mul_lt d m hd hm)
  linarith

/-- The final segment's emitted length is the remaining tail. -/
theorem seg_last_len (d : ℚ) (m : ℕ) (hd : 0 < d) (hm : 0 < m) :
    min (m : ℚ) (d - ((chunks_needed d m - 1 : ℕ) : ℚ) * m)
      = d - ((chunks_needed d m - 1 : ℕ) : ℚ) * m := by
  have h1 : 1 ≤ chunks_needed d m := chunks_needed_pos d m
  have hcast : ((chunks_needed d m - 1 : ℕ) : ℚ) = (chunks_needed d m : ℚ) - 1 := by
    push_cast [h1]
    ring
  rw [hcast]
  have h2 : d ≤ (chunks_needed d m : ℚ) * m := le_chunks_mul d m hd hm
  have h3 : (chunks_needed d m : ℚ) * m = ((chunks_needed d m : ℚ) - 1) * m + m := by ring
  exact min_eq_right (by linarith [h3 ▸ h2])

/-- C1: for every positive duration `d` and positive maximum segment
length `m`, `split_wav` produces exactly `max(1, ceil(d/m))` segments;
segment `i` is requested at start offset `i * m`; every segment except the
last has emitted length `m` and positive length in general; consecutive
segments are adjacent (no gaps, no overlaps); the first segment starts at
offset `0` and the last ends exactly at `d`, so the segments cover
`[0, d)` in order; concretely, duration `125` with `m = 40` yields the
four segments of lengths `40, 40, 40, 5`. -/
theorem c1_segmentation (d : ℚ) (m : ℕ) (hd : 0 < d) (hm : 0 < m) :
    (segments d m).length = max 1 (⌈d / (m : ℚ)⌉).toNat
    ∧ (∀ i, ∀ h : i < (segments d m).length,
        ((segments d m).get ⟨i, h⟩).start = (i : ℚ) * m)
    ∧ (∀ i, ∀ h : i < (segments d m).length,
        0 < ((segments d m).get ⟨i, h⟩).len)
    ∧ (∀ i, ∀ h : i < (segments d m).length, i + 1 < (segments d m).length →
        ((segments d m).get ⟨i, h⟩).len = m)
    ∧ (∀ i, ∀ h : i + 1 < (segments d m).length,
        ((segments d m).get ⟨i + 1, h⟩).start
          = ((segments d m).get ⟨i, Nat.lt_of_succ_lt h⟩).start
            + ((segments d m).get ⟨i, Nat.lt_of_succ_lt h⟩).len)
    ∧ (∀ h : 0 < (segments d m).length, ((segments d m).get ⟨0, h⟩).start = 0)
    ∧ (∀ h : (segments d m).length - 1 < (segments d m).length,
        ((segments d m).get ⟨(segments d m).length - 1, h⟩).start
          + ((segments d m).get ⟨(segments d m).length - 1, h⟩).len = d)
    ∧ segments 125 40
        = [{ start := 0, len := 40 }, { start := 40, len := 40 },
           { start := 80, len := 40 }, { start := 120, len := 5 }] := by
  refine ⟨?_, ?_, ?_, ?_, ?_, ?_, ?_, ?_⟩
  · rw [segments_length]
    rfl
  · intro i h
    rw [segments_get]
  · intro i h
    rw [segments_get]
    have hi : i < chunks_needed d m := by
      rw [segments_length] at h
      exact h
    have hmQ : (0 : ℚ) < m := by exact_mod_cast hm
    exact lt_min hmQ (seg_tail_pos d m hd hm i hi)
  · intro i h hsucc
    rw [segments_get]
    rw [segments_length] at hsucc
    exact seg_len_full d m hd hm i hsucc
  · intro i h
    rw [segments_get, segments_get]
    rw [segments_length] at h
    rw [seg_len_full d m hd hm i h]
    push_cast
    ring
  · intro h
    rw [segments_get]
    norm_num
  · intro h
    rw [segments_get]
    rw [segments_length]
    rw [seg_last_len d m hd hm]
    ring
  · have hceil : ⌈(125 : ℚ) / ((40 : ℕ) : ℚ)⌉ = 4 := by
      rw [show ((40 : ℕ) : ℚ) = (40 : ℚ) by norm_num]
      rw [Int.ceil_eq_iff]
      norm_num
    have hc : chunks_needed 125 40 = 4 := by
      unfold chunks_needed
      rw [hceil]
      rfl
    unfold segments
    rw [hc]
    norm_num [List.range_succ, min_def]

/-- Concrete witness for C1: the `125`-second, `m = 40` scenario. -/
theorem c1_segmentation_witness :
    segments 125 40
      = [{ start := 0, len := 40 }, { start := 40, len := 40 },
         { start := 80, len := 40 }, { start := 120, len := 5 }] :=
  (c1_segmentation 125 40 (by norm_num) (by norm_num)).2.2.2.2.2.2.2

/-- Observable state of one `transcribe_audio` call: whether the segment
workspace directory is on disk when the call returns, and the ordered
trace of speech-engine calls it made. -/
structure TS where
  wsExists : Bool
  calls : List Call
deriving DecidableEq, Repr

/-- Sequential transcription of the listed segment indices
(`for idx, chunk in enumerate(chunk_paths)` in `transcribe_audio`,
`app.py` lines 272-274): stops at the first engine failure, otherwise
collects the per-segment texts in order.  Also returns the engine-call
trace actually performed. -/
def transcribeSegs (env : Env) (a : Asset) : List ℕ → Except Err (List String) × List Call
  | [] => (Except.ok [], [])
  | i :: rest =>
    match env.segText a i with
    | Except.error e => (Except.error e, [Call.seg a i])
    | Except.ok t =>
      let restOut := transcribeSegs env a rest
      (match restOut.1 with
       | Except.ok ts => Except.ok (t :: ts)
       | Except.error e => Except.error e,
       Call.seg a i :: restOut.2)

/-- `transcribe_audio` (`app.py` lines 251-277): probe the duration; on a
probe exception fall back to one whole-asset engine call; if the duration
is at most the chunk length, one whole-asset call; otherwise split into
chunks, transcribe them strictly in index order, remove the workspace in
the `finally` block, and join the texts with one newline. -/
def transcribe_audio (env : Env) (a : Asset) (m : ℕ) : Except Err String × TS :=
  match env.probe a with
  | none => (env.wholeText a, { wsExists := false, calls := [Call.whole a] })
  | some d =>
    if d ≤ (m : ℚ) then
      (env.wholeText a, { wsExists := false, calls := [Call.whole a] })
    else
      match (split_wav env a m).1 with
      | Except.error e => (Except.error e, { wsExists := (split_wav env a m).2, calls := [] })
      | Except.ok segs =>
        let out := transcribeSegs env a (List.range segs.length)
        (match out.1 with
         | Except.ok ts => Except.ok (String.intercalate "\n" ts)
         | Except.error e => Except.error e,
         { wsExists := false, calls := out.2 })

/-- When all listed segment engine calls succeed, `transcribeSegs` returns
exactly the per-index texts in list order and calls the engine once per
index, in order. -/
theorem transcribeSegs_all_ok (env : Env) (a : Asset) (ts : ℕ → String) :
    ∀ l : List ℕ, (∀ i ∈ l, env.segText a i = Except.ok (ts i)) →
      transcribeSegs env a l = (Except.ok (l.map ts), l.map (Call.seg a)) := by
  intro l
  induction l with
  | nil => intro _; rfl
  | cons i rest ih =>
    intro hyp
    have hi : env.segText a i = Except.ok (ts i) := hyp i (by simp)
    have hrest := ih (fun j hj => hyp j (by simp [hj]))
    simp only [transcribeSegs, hi, hrest, List.map_cons]

/-- A failed `split_wav` never leaves its workspace on disk. -/
theorem split_wav_error_ws (env : Env) (a : Asset) (m : ℕ) (e : Err) :
    (split_wav env a m).1 = Except.error e → (split_wav env a m).2 = false := by
  intro h
  cases henv : env.probe a with
  | none => simp [split_wav, henv]
  | some d =>
    cases hf : firstExtractFail env a (chunks_needed d m) with
    | some j => simp [split_wav, henv, hf]
    | none => simp [split_wav, henv, hf] at h

/-- A successful `split_wav` probes successfully and extracts every chunk. -/
theorem split_wav_ok_ws (env : Env) (a : Asset) (m : ℕ) (d : ℚ)
    (hp : env.probe a = some d)
    (hx : ∀ i, i < chunks_needed d m → env.extractOk a i = true) :
    split_wav env a m = (Except.ok (segments d m), true) := by
  have hfind : firstExtractFail env a (chunks_needed d m) = none := by
    unfold firstExtractFail
    rw [List.find?_eq_none]
    intro i hi
    rw [List.mem_range] at hi
    simp [hx i hi]
  simp [split_wav, hp, hfind]

/-- C2: the transcription orchestrator transcribes the whole asset in a
single engine call when the duration probe raises (defensive fallback) or
when the probed duration is at most the chunk length; otherwise it splits
the asset and, when extraction and every segment engine call succeed,
transcribes the segments strictly in index order and joins the
per-segment texts (empty ones included) with exactly one newline between
consecutive segments. -/
theorem c2_transcribe_orchestration (env : Env) (a : Asset) (m : ℕ) :
    (env.probe a = none →
      transcribe_audio env a m
        = (env.wholeText a, { wsExists := false, calls := [Call.whole a] }))
    ∧ (∀ d : ℚ, env.probe a = some d → d ≤ (m : ℚ) →
      transcribe_audio env a m
        = (env.wholeText a, { wsExists := false, calls := [Call.whole a] }))
    ∧ (∀ d : ℚ, ∀ ts : ℕ → String, env.probe a = some d → ¬ d ≤ (m : ℚ) →
      (∀ i, i < chunks_needed d m → env.extractOk a i = true) →
      (∀ i, i < chunks_needed d m → env.segText a i = Except.ok (ts i)) →
      transcribe_audio env a m
        = (Except.ok (String.intercalate "\n" ((List.range (chunks_needed d m)).map ts)),
           { wsExists := false,
             calls := (List.range (chunks_needed d m)).map (Call.seg a) })) := by
  refine ⟨?_, ?_, ?_⟩
  · intro hp
    simp [transcribe_audio, hp]
  · intro d hp hle
    simp [transcribe_audio, hp, hle]
  · intro d ts hp hgt hx hseg
    have hsw := split_wav_ok_ws env a m d hp hx
    have hlen : (segments d m).length = chunks_needed d m := segments_length d m
    have htr := transcribeSegs_all_ok env a ts (List.range (chunks_needed d m))
      (fun i hi => hseg i (List.mem_range.mp hi))
    simp [transcribe_audio, hp, hgt, hsw, hlen, htr]

/-- C5: after the orchestrator call returns — with a transcript or with an
error — the segmentation workspace is gone from disk; a failing
`split_wav` removes the workspace before propagating, and a successful
`split_wav` does hand over an existing workspace (so the orchestrator's
cleanup is not vacuous). -/
theorem c5_workspace_lifecycle (env : Env) (a : Asset) (m : ℕ) :
    ((transcribe_audio env a m).2.wsExists = false)
    ∧ (∀ e, (split_wav env a m).1 = Except.error e → (split_wav env a m).2 = false)
    ∧ (∀ d : ℚ, env.probe a = some d →
        (∀ i, i < chunks_needed d m → env.extractOk a i = true) →
        (split_wav env a m).2 = true) := by
  refine ⟨?_, split_wav_error_ws env a m, ?_⟩
  · cases henv : env.probe a with
    | none => simp [transcribe_audio, henv]
    | some d =>
      by_cases hle : d ≤ (m : ℚ)
      · simp [transcribe_audio, henv, hle]
      · cases hsw : (split_wav env a m).1 with
        | error e =>
          simp [transcribe_audio, henv, hle, hsw, split_wav_error_ws env a m e hsw]
        | ok segs => simp [transcribe_audio, henv, hle, hsw]
  · intro d hp hx
    rw [split_wav_ok_ws env a m d hp hx]

/-- A deterministic witness environment: every file exists, every probe
reports 125 seconds, every external call succeeds, segment `i`
transcribes to the decimal numeral of `i`. -/
def envW : Env where
  assetExists := fun _ => true
  probe := fun _ => some 125
  convertOk := fun _ => true
  extractOk := fun _ _ => true
  wholeText := fun _ => Except.ok "whole"
  segText := fun _ i => Except.ok (toString i)
  summarize := fun _ => Except.ok (some "notes")

/-- A concrete asset used by the witnesses. -/
def assetW : Asset := { stem := "meeting", ext := ".mp3" }

/-- Concrete witness for C2: a 125-second asset with 40-second chunks is
transcribed chunk by chunk in index order and joined with newlines. -/
theorem c2_transcribe_orchestration_witness :
    transcribe_audio envW assetW 40
      = (Except.ok (String.intercalate "\n"
            ((List.range (chunks_needed 125 40)).map (fun i => toString i))),
         { wsExists := false,
           calls := (List.range (chunks_needed 125 40)).map (Call.seg assetW) }) :=
  (c2_transcribe_orchestration envW assetW 40).2.2 125 (fun i => toString i)
    rfl (by norm_num) (fun _ _ => rfl) (fun _ _ => rfl)

/-- Concrete witness for C5: in the witness environment the workspace
exists right after a successful split (and the orchestrator state shows it
removed afterwards). -/
theorem c5_workspace_lifecycle_witness :
    (split_wav envW assetW 40).2 = true ∧ (transcribe_audio envW assetW 40).2.wsExists = false :=
  ⟨(c5_workspace_lifecycle envW assetW 40).2.2 125 rfl (fun _ _ => rfl),
   (c5_workspace_lifecycle envW assetW 40).1⟩

/-- `generate_notes` (`app.py` lines 280-343) viewed at the boundary of
the summarization-engine call: the argument is the outcome of
`client.chat.completions.create` — an exception (`Except.error`), or the
`response.choices[0].message.content` field.  The code returns
`content if content else "No notes generated."`, so a missing (`None`)
or empty (falsy) content is replaced by the sentinel; an exception simply
propagates (there is no handler in `generate_notes`). -/
def generate_notes (response : Except Err (Option String)) : Except Err String :=
  match response with
  | Except.error e => Except.error e
  | Except.ok content =>
    Except.ok (match content with
      | some s => if s = "" then "No notes generated." else s
      | none => "No notes generated.")

/-- C8: the sentinel notes text is substituted exactly when the engine
call succeeded but returned missing or empty content; an engine exception
propagates unchanged and is never replaced by the sentinel. -/
theorem c8_sentinel_only_on_empty_success :
    (∀ e : Err, generate_notes (Except.error e) = Except.error e)
    ∧ generate_notes (Except.ok none) = Except.ok "No notes generated."
    ∧ generate_notes (Except.ok (some "")) = Except.ok "No notes generated."
    ∧ (∀ s : String, ¬ s = "" → generate_notes (Except.ok (some s)) = Except.ok s) := by
  refine ⟨fun e => rfl, rfl, by simp [generate_notes], ?_⟩
  intro s hs
  simp [generate_notes, hs]

/-- Concrete witness for C8: non-empty engine content is passed through
without substitution. -/
theorem c8_sentinel_witness :
    generate_notes (Except.ok (some "minutes")) = Except.ok "minutes" :=
  c8_sentinel_only_on_empty_success.2.2.2 "minutes" (by decide)

/-- Whether a file name matches the glob pattern
`{base_title}_*-<suffix>` used by `find_existing_outputs`
(`app.py` lines 354-357): the name starts with `base_title` and an
underscore, ends with the fixed suffix, and is long enough that the `*`
matches a (possibly empty) middle. -/
def matchesOut (base suffix name : String) : Bool :=
  strStarts (base ++ "_") name && strEnds suffix name
    && decide ((base ++ "_").length + suffix.length ≤ name.length)

/-- The transcription-output suffix of `find_existing_outputs`. -/
def transcriptionSuffix : String := "-transcription.txt"

/-- The notes-output suffix of `find_existing_outputs`. -/
def notesSuffix : String := "-notes.txt"

/-- `find_existing_outputs` (`app.py` lines 354-357): the transcription
outputs and the notes outputs among the text files of the output
directory that match the base title's patterns.  (The code sorts each
glob result; only membership matters to the callers modelled here.) -/
def find_existing_outputs (outFiles : List String) (base : String) : List String × List String :=
  (outFiles.filter (fun n => matchesOut base transcriptionSuffix n),
   outFiles.filter (fun n => matchesOut base notesSuffix n))

/-- The skip decision of `process_file` (`app.py` line 378):
`skip_existing and trans_files and notes_files`, with Python truthiness of
the two lists being non-emptiness. -/
def should_skip (skip_existing : Bool) (outFiles : List String) (base : String) : Bool :=
  skip_existing && !(find_existing_outputs outFiles base).1.isEmpty
    && !(find_existing_outputs outFiles base).2.isEmpty

/-- A name built as `base ++ "_" ++ mid ++ suffix` matches the pattern for
`base` and `suffix`. -/
theorem matchesOut_built (base mid suffix : String) :
    matchesOut base suffix (base ++ "_" ++ mid ++ suffix) = true := by
  have hdata : (base ++ "_" ++ mid ++ suffix).data
      = (base ++ "_").data ++ (mid.data ++ suffix.data) := by
    simp [String.data_append, List.append_assoc]
  have hdata2 : (base ++ "_" ++ mid ++ suffix).data
      = (base ++ "_" ++ mid).data ++ suffix.data := by
    simp [String.data_append, List.append_assoc]
  unfold matchesOut strStarts strEnds
  simp only [Bool.and_eq_true, decide_eq_true_eq]
  refine ⟨⟨?_, ?_⟩, ?_⟩
  · rw [List.isPrefixOf_iff_prefix, hdata]
    exact List.prefix_append _ _
  · rw [List.isSuffixOf_iff_suffix, hdata2]
    exact List.suffix_append _ _
  · have h1 : (base ++ "_" ++ mid ++ suffix).length
        = (base ++ "_").length + mid.length + suffix.length := by
      simp [String.length_append]
    omega

/-- A filtered list is non-empty exactly when some member satisfies the
predicate (Python truthiness of a glob result list). -/
theorem filter_nonempty_iff {α : Type} (p : α → Bool) (l : List α) :
    ((l.filter p).isEmpty = false) ↔ ∃ x ∈ l, p x = true := by
  constructor
  · intro h
    cases hf : l.filter p with
    | nil => rw [hf] at h; simp at h
    | cons a t =>
      have ha : a ∈ l.filter p := by
        rw [hf]
        exact List.mem_cons_self a t
      rcases List.mem_filter.mp ha with ⟨h1, h2⟩
      exact ⟨a, h1, h2⟩
  · rintro ⟨x, hx, hpx⟩
    have hm : x ∈ l.filter p := List.mem_filter.mpr ⟨hx, hpx⟩
    cases hf : l.filter p with
    | nil =>
      rw [hf] at hm
      simp at hm
    | cons a t => rfl

/-- The transcription output file name,
`f"{base_title}_{timestamp}-transcription.txt"` (`app.py` line 383). -/
def transcription_name (base ts : String) : String :=
  base ++ "_" ++ ts ++ transcriptionSuffix

/-- The notes output file name,
`f"{base_title}_{timestamp}-notes.txt"` (`app.py` line 384). -/
def notes_name (base ts : String) : String :=
  base ++ "_" ++ ts ++ notesSuffix

/-- C4: the skip decision is true exactly when the flag is set and at
least one existing transcription output and at least one existing notes
output match the base title's patterns; if either kind of output is
absent, the asset is not skipped. -/
theorem c4_should_skip_iff (flag : Bool) (fs : List String) (base : String) :
    (should_skip flag fs base = true
      ↔ flag = true
        ∧ (∃ n ∈ fs, matchesOut base transcriptionSuffix n = true)
        ∧ (∃ n ∈ fs, matchesOut base notesSuffix n = true))
    ∧ ((find_existing_outputs fs base).1.isEmpty = true → should_skip flag fs base = false)
    ∧ ((find_existing_outputs fs base).2.isEmpty = true → should_skip flag fs base = false) := by
  refine ⟨?_, ?_, ?_⟩
  · unfold should_skip find_existing_outputs
    simp only [Bool.and_eq_true, Bool.not_eq_true']
    rw [filter_nonempty_iff, filter_nonempty_iff]
    tauto
  · intro h
    unfold should_skip
    rw [h]
    simp
  · intro h
    unfold should_skip
    rw [h]
    simp

/-- Concrete witness for C4: a directory holding a transcription output
but no notes output for the base title is not skipped. -/
theorem c4_should_skip_witness :
    should_skip true [transcription_name "meeting" "20250101-000000"] "meeting" = false :=
  (c4_should_skip_iff true [transcription_name "meeting" "20250101-000000"] "meeting").2.2
    (by decide)

/-- Observable filesystem and process state threaded through
`process_file`: the text output files present in the output directory,
whether the temporary converted wav currently exists, the paths `unlink`ed
so far, and a logical clock that stands in for the wall-clock timestamp of
line 382 (each processing run formats a fresh timestamp). -/
structure PFState where
  outFiles : List String
  convertedWavExists : Bool
  deleted : List String
  clock : ℕ
deriving DecidableEq, Repr

/-- Result of one `process_file` call: the skip return (`None`), success
(the dict with both output paths), or a raised exception. -/
inductive PFResult where
  | skipped
  | ok (tpath npath : String)
  | err (e : Err)
deriving DecidableEq, Repr

/-- Path of the temporary converted wav:
`input_path.with_suffix(input_path.suffix + ".converted.wav")`
(`app.py` line 192), i.e. the input name followed by `.converted.wav`. -/
def convName (a : Asset) : String := a.stem ++ a.ext ++ ".converted.wav"

/-- Whether `convert_to_wav` must transcode and hence returns a temporary
file: exactly when the lowercased input extension is not `.wav`
(`app.py` lines 190-191 and 205). -/
def isTempWav (a : Asset) : Bool := !(strLower a.ext == ".wav")

/-- The conversion step's effect on the state: after a successful
`convert_to_wav`, a temporary wav exists exactly for non-canonical
inputs. -/
def withTempWav (a : Asset) (s : PFState) : PFState :=
  { s with convertedWavExists := isTempWav a }

/-- The `finally` cleanup of `process_file` (`app.py` lines 400-402):
`if should_cleanup_wav and wav_path.exists(): wav_path.unlink()`. -/
def cleanupWav (a : Asset) (s : PFState) : PFState :=
  if isTempWav a && s.convertedWavExists then
    { s with convertedWavExists := false, deleted := s.deleted ++ [convName a] }
  else s

/-- The non-skipped tail of `process_file` (`app.py` lines 382-415):
take the timestamp, convert to wav (a failed ffmpeg conversion raises),
transcribe with the `finally` cleanup of the temporary wav, write the
transcription file, generate notes, write the notes file, and return both
paths.  Any raised error is returned as a `PFResult.err` value together
with the state at the raise point. -/
def runPipeline (env : Env) (m : ℕ) (a : Asset) (s : PFState) : PFResult × PFState :=
  let ts := toString s.clock
  let s1 : PFState := { s with clock := s.clock + 1 }
  if isTempWav a && !env.convertOk a then (PFResult.err Err.conversionFailed, s1)
  else
    let s3 : PFState := cleanupWav a (withTempWav a s1)
    match (transcribe_audio env a m).1 with
    | Except.error e => (PFResult.err e, s3)
    | Except.ok transcription =>
      let s4 : PFState := { s3 with outFiles := s3.outFiles ++ [transcription_name a.stem ts] }
      match generate_notes (env.summarize transcription) with
      | Except.error e => (PFResult.err e, s4)
      | Except.ok _ =>
        (PFResult.ok (transcription_name a.stem ts) (notes_name a.stem ts),
         { s4 with outFiles := s4.outFiles ++ [notes_name a.stem ts] })

/-- `process_file` (`app.py` lines 360-415): existence check, supported
extension check, the skip decision, then the processing pipeline. -/
def process_file (env : Env) (m : ℕ) (skip_existing : Bool) (a : Asset) (s : PFState) :
    PFResult × PFState :=
  if !env.assetExists a then (PFResult.err Err.missingInput, s)
  else if !(SUPPORTED_EXTENSIONS.contains (strLower a.ext)) then
    (PFResult.err Err.unsupportedFormat, s)
  else if should_skip skip_existing s.outFiles a.stem then (PFResult.skipped, s)
  else runPipeline env m a s

/-- The state-independent outcome of the non-skipped pipeline for an
asset: which error it raises, if any.  Mirrors the decision structure of
`runPipeline`; the transcription and summarization oracles do not depend
on the filesystem state. -/
def pipelineResult (env : Env) (a : Asset) (m : ℕ) : Except Err Unit :=
  if isTempWav a && !env.convertOk a then Except.error Err.conversionFailed
  else
    match (transcribe_audio env a m).1 with
    | Except.error e => Except.error e
    | Except.ok t =>
      match generate_notes (env.summarize t) with
      | Except.error e => Except.error e
      | Except.ok _ => Except.ok ()

/-- Cleanup does not touch the output files. -/
theorem cleanupWav_outFiles (a : Asset) (s : PFState) :
    (cleanupWav a s).outFiles = s.outFiles := by
  unfold cleanupWav
  split
  · rfl
  · rfl

/-- Cleanup does not touch the clock. -/
theorem cleanupWav_clock (a : Asset) (s : PFState) :
    (cleanupWav a s).clock = s.clock := by
  unfold cleanupWav
  split
  · rfl
  · rfl

/-- After conversion followed by cleanup, no temporary wav remains. -/
theorem cleanupWav_withTempWav_gone (a : Asset) (s : PFState) :
    (cleanupWav a (withTempWav a s)).convertedWavExists = false := by
  by_cases h : isTempWav a = true
  · simp [cleanupWav, withTempWav, h]
  · simp [cleanupWav, withTempWav, h]

/-- For a temporary conversion, cleanup deletes exactly the converted
file. -/
theorem cleanupWav_withTempWav_deleted_temp (a : Asset) (s : PFState)
    (h : isTempWav a = true) :
    (cleanupWav a (withTempWav a s)).deleted = s.deleted ++ [convName a] := by
  simp [cleanupWav, withTempWav, h]

/-- For a canonical input, cleanup deletes nothing. -/
theorem cleanupWav_withTempWav_deleted_canon (a : Asset) (s : PFState)
    (h : isTempWav a = false) :
    (cleanupWav a (withTempWav a s)).deleted = s.deleted := by
  simp [cleanupWav, withTempWav, h]

/-- The result kind of the pipeline tail depends only on the oracles, not
on the filesystem state: it is `pipelineResult`, with the success paths
returning the two freshly timestamped output names. -/
theorem runPipeline_result_kind (env : Env) (m : ℕ) (a : Asset) (s : PFState) :
    (runPipeline env m a s).1
      = (match pipelineResult env a m with
         | Except.error e => PFResult.err e
         | Except.ok _ => PFResult.ok (transcription_name a.stem (toString s.clock))
             (notes_name a.stem (toString s.clock))) := by
  by_cases hc : (isTempWav a && !env.convertOk a) = true
  · simp [runPipeline, pipelineResult, hc]
  · have hc' : (isTempWav a && !env.convertOk a) = false := by simpa using hc
    cases ht : (transcribe_audio env a m).1 with
    | error e => simp [runPipeline, pipelineResult, hc', ht]
    | ok txt =>
      cases hs : generate_notes (env.summarize txt) with
      | error e => simp [runPipeline, pipelineResult, hc', ht, hs]
      | ok notes => simp [runPipeline, pipelineResult, hc', ht, hs]

/-- The pipeline tail never returns the skip result. -/
theorem runPipeline_not_skipped (env : Env) (m : ℕ) (a : Asset) (s : PFState) :
    (runPipeline env m a s).1 ≠ PFResult.skipped := by
  rw [runPipeline_result_kind]
  cases pipelineResult env a m with
  | error e => simp
  | ok u => simp

/-- The pipeline tail only ever appends to the output files. -/
theorem runPipeline_outFiles_mono (env : Env) (m : ℕ) (a : Asset) (s : PFState) :
    ∀ x ∈ s.outFiles, x ∈ (runPipeline env m a s).2.outFiles := by
  intro x hx
  by_cases hc : (isTempWav a && !env.convertOk a) = true
  · simpa [runPipeline, hc] using hx
  · have hc' : (isTempWav a && !env.convertOk a) = false := by simpa using hc
    cases ht : (transcribe_audio env a m).1 with
    | error e => simpa [runPipeline, hc', ht, cleanupWav_outFiles, withTempWav] using hx
    | ok txt =>
      cases hs : generate_notes (env.summarize txt) with
      | error e =>
        simp [runPipeline, hc', ht, hs, cleanupWav_outFiles, withTempWav, List.mem_append]
        exact Or.inl hx
      | ok notes =>
        simp [runPipeline, hc', ht, hs, cleanupWav_outFiles, withTempWav, List.mem_append]
        exact Or.inl hx

/-- Elimination form of a successful `pipelineResult`. -/
theorem pipelineResult_ok_elim (env : Env) (a : Asset) (m : ℕ)
    (h : pipelineResult env a m = Except.ok ()) :
    (isTempWav a && !env.convertOk a) = false
    ∧ ∃ txt, (transcribe_audio env a m).1 = Except.ok txt
        ∧ ∃ notes, generate_notes (env.summarize txt) = Except.ok notes := by
  by_cases hc : (isTempWav a && !env.convertOk a) = true
  · rw [pipelineResult] at h
    simp [hc] at h
  · have hc' : (isTempWav a && !env.convertOk a) = false := by simpa using hc
    refine ⟨hc', ?_⟩
    rw [pipelineResult] at h
    cases ht : (transcribe_audio env a m).1 with
    | error e => simp [hc', ht] at h
    | ok txt =>
      cases hs : generate_notes (env.summarize txt) with
      | error e => simp [hc', ht, hs] at h
      | ok notes => exact ⟨txt, rfl, notes, hs⟩

/-- Exact form of the pipeline tail on the full success path. -/
theorem runPipeline_ok_eq (env : Env) (m : ℕ) (a : Asset) (s : PFState)
    (txt notes : String)
    (hc : (isTempWav a && !env.convertOk a) = false)
    (ht : (transcribe_audio env a m).1 = Except.ok txt)
    (hs : generate_notes (env.summarize txt) = Except.ok notes) :
    runPipeline env m a s
      = (PFResult.ok (transcription_name a.stem (toString s.clock))
           (notes_name a.stem (toString s.clock)),
         { cleanupWav a (withTempWav a { s with clock := s.clock + 1 }) with
             outFiles := (cleanupWav a (withTempWav a { s with clock := s.clock + 1 })).outFiles
               ++ [transcription_name a.stem (toString s.clock),
                   notes_name a.stem (toString s.clock)] }) := by
  simp [runPipeline, hc, ht, hs]

/-- Internal characterization of the skip decision (also the content of
claim C4, restated as a reusable helper). -/
theorem should_skip_true_iff (flag : Bool) (fs : List String) (base : String) :
    should_skip flag fs base = true
      ↔ flag = true
        ∧ (∃ n ∈ fs, matchesOut base transcriptionSuffix n = true)
        ∧ (∃ n ∈ fs, matchesOut base notesSuffix n = true) := by
  unfold should_skip find_existing_outputs
  simp only [Bool.and_eq_true, Bool.not_eq_true']
  rw [filter_nonempty_iff, filter_nonempty_iff]
  tauto

/-- A transcription output for the asset's base title is on disk. -/
def hasTransOut (s : PFState) (a : Asset) : Prop :=
  ∃ f ∈ s.outFiles, matchesOut a.stem transcriptionSuffix f = true

/-- A notes output for the asset's base title is on disk. -/
def hasNotesOut (s : PFState) (a : Asset) : Prop :=
  ∃ f ∈ s.outFiles, matchesOut a.stem notesSuffix f = true

/-- `process_file` only ever appends to the output files. -/
theorem process_file_outFiles_mono (env : Env) (m : ℕ) (sk : Bool) (a : Asset) (s : PFState) :
    ∀ x ∈ s.outFiles, x ∈ (process_file env m sk a s).2.outFiles := by
  intro x hx
  unfold process_file
  split_ifs with h1 h2 h3
  · exact hx
  · exact hx
  · exact hx
  · exact runPipeline_outFiles_mono env m a s x hx

/-- A successful `process_file` run: the guards passed, the pipeline
succeeded, the returned paths are the freshly timestamped output names,
and both are on disk afterwards. -/
theorem process_file_ok_spec (env : Env) (m : ℕ) (sk : Bool) (a : Asset) (s : PFState)
    (t n : String) (h : (process_file env m sk a s).1 = PFResult.ok t n) :
    env.assetExists a = true
    ∧ SUPPORTED_EXTENSIONS.contains (strLower a.ext) = true
    ∧ pipelineResult env a m = Except.ok ()
    ∧ t = transcription_name a.stem (toString s.clock)
    ∧ n = notes_name a.stem (toString s.clock)
    ∧ t ∈ (process_file env m sk a s).2.outFiles
    ∧ n ∈ (process_file env m sk a s).2.outFiles := by
  cases g1 : env.assetExists a with
  | false =>
    have hpf : process_file env m sk a s = (PFResult.err Err.missingInput, s) := by
      simp [process_file, g1]
    rw [hpf] at h
    simp at h
  | true =>
    cases g2 : SUPPORTED_EXTENSIONS.contains (strLower a.ext) with
    | false =>
      have g2' : strLower a.ext ∉ SUPPORTED_EXTENSIONS := by simpa using g2
      have hpf : process_file env m sk a s = (PFResult.err Err.unsupportedFormat, s) := by
        simp [process_file, g1, g2']
      rw [hpf] at h
      simp at h
    | true =>
      have g2' : strLower a.ext ∈ SUPPORTED_EXTENSIONS := by simpa using g2
      cases g3 : should_skip sk s.outFiles a.stem with
      | true =>
        have hpf : process_file env m sk a s = (PFResult.skipped, s) := by
          simp [process_file, g1, g2', g3]
        rw [hpf] at h
        simp at h
      | false =>
        have hpf : process_file env m sk a s = runPipeline env m a s := by
          simp [process_file, g1, g2', g3]
        rw [hpf] at h ⊢
        have hk := runPipeline_result_kind env m a s
        cases hp : pipelineResult env a m with
        | error e =>
          rw [hp] at hk
          rw [hk] at h
          simp at h
        | ok u =>
          cases u
          obtain ⟨hc, txt, htr, notes, hgn⟩ := pipelineResult_ok_elim env a m hp
          rw [runPipeline_ok_eq env m a s txt notes hc htr hgn] at h ⊢
          have h' : PFResult.ok (transcription_name a.stem (toString s.clock))
              (notes_name a.stem (toString s.clock)) = PFResult.ok t n := h
          injection h' with ht hn
          subst ht
          subst hn
          refine ⟨rfl, rfl, rfl, rfl, rfl, ?_, ?_⟩
          · simp
          · simp

/-- With the guards passing and a pipeline that succeeds for the asset,
`process_file` cannot raise: it skips or succeeds. -/
theorem process_file_no_err_of_ok_pipeline (env : Env) (m : ℕ) (sk : Bool) (a : Asset)
    (s : PFState) (h1 : env.assetExists a = true)
    (h2 : SUPPORTED_EXTENSIONS.contains (strLower a.ext) = true)
    (hp : pipelineResult env a m = Except.ok ()) (e : Err) :
    (process_file env m sk a s).1 ≠ PFResult.err e := by
  have h2' : strLower a.ext ∈ SUPPORTED_EXTENSIONS := by simpa using h2
  cases g3 : should_skip sk s.outFiles a.stem with
  | true =>
    have hpf : process_file env m sk a s = (PFResult.skipped, s) := by
      simp [process_file, h1, h2', g3]
    rw [hpf]
    simp
  | false =>
    have hpf : process_file env m sk a s = runPipeline env m a s := by
      simp [process_file, h1, h2', g3]
    rw [hpf, runPipeline_result_kind, hp]
    simp

/-- A raised `process_file` means a guard failed or the pipeline fails for
this asset — a fact independent of the filesystem state. -/
theorem process_file_err_elim (env : Env) (m : ℕ) (sk : Bool) (a : Asset) (s : PFState)
    (e : Err) (h : (process_file env m sk a s).1 = PFResult.err e) :
    ¬(env.assetExists a = true
      ∧ SUPPORTED_EXTENSIONS.contains (strLower a.ext) = true
      ∧ pipelineResult env a m = Except.ok ()) := by
  rintro ⟨h1, h2, hp⟩
  exact process_file_no_err_of_ok_pipeline env m sk a s h1 h2 hp e h

/-- A skip outcome leaves the state unchanged and certifies that both
kinds of output were already present. -/
theorem process_file_skipped_spec (env : Env) (m : ℕ) (sk : Bool) (a : Asset) (s : PFState)
    (h : (process_file env m sk a s).1 = PFResult.skipped) :
    (process_file env m sk a s).2 = s ∧ hasTransOut s a ∧ hasNotesOut s a := by
  cases g1 : env.assetExists a with
  | false =>
    have hpf : process_file env m sk a s = (PFResult.err Err.missingInput, s) := by
      simp [process_file, g1]
    rw [hpf] at h
    simp at h
  | true =>
    cases g2 : SUPPORTED_EXTENSIONS.contains (strLower a.ext) with
    | false =>
      have g2' : strLower a.ext ∉ SUPPORTED_EXTENSIONS := by simpa using g2
      have hpf : process_file env m sk a s = (PFResult.err Err.unsupportedFormat, s) := by
        simp [process_file, g1, g2']
      rw [hpf] at h
      simp at h
    | true =>
      have g2' : strLower a.ext ∈ SUPPORTED_EXTENSIONS := by simpa using g2
      cases g3 : should_skip sk s.outFiles a.stem with
      | true =>
        have hpf : process_file env m sk a s = (PFResult.skipped, s) := by
          simp [process_file, g1, g2', g3]
        rcases (should_skip_true_iff sk s.outFiles a.stem).mp g3 with ⟨hf, hT, hN⟩
        rw [hpf]
        exact ⟨rfl, hT, hN⟩
      | false =>
        have hpf : process_file env m sk a s = runPipeline env m a s := by
          simp [process_file, g1, g2', g3]
        rw [hpf] at h
        exact absurd h (runPipeline_not_skipped env m a s)

/-- Under `skip_existing = true`, an asset whose both outputs are already
present (and whose guards pass) is skipped. -/
theorem process_file_skips_when_done (env : Env) (m : ℕ) (a : Asset) (s : PFState)
    (h1 : env.assetExists a = true)
    (h2 : SUPPORTED_EXTENSIONS.contains (strLower a.ext) = true)
    (hT : hasTransOut s a) (hN : hasNotesOut s a) :
    (process_file env m true a s).1 = PFResult.skipped := by
  have h2' : strLower a.ext ∈ SUPPORTED_EXTENSIONS := by simpa using h2
  have hss : should_skip true s.outFiles a.stem = true :=
    (should_skip_true_iff true s.outFiles a.stem).mpr ⟨rfl, hT, hN⟩
  simp [process_file, h1, h2', hss]

/-- C6: when transcription succeeds but the summarization engine call
raises, the transcription file has already been written when the error
surfaces, no notes file is written (exactly one file, the transcription,
was added), and `process_file` reports the failure by propagating the
error. -/
theorem c6_summarization_failure (env : Env) (m : ℕ) (sk : Bool) (a : Asset) (s : PFState)
    (txt : String) (e : Err)
    (h1 : env.assetExists a = true)
    (h2 : SUPPORTED_EXTENSIONS.contains (strLower a.ext) = true)
    (h3 : should_skip sk s.outFiles a.stem = false)
    (h4 : (isTempWav a && !env.convertOk a) = false)
    (h5 : (transcribe_audio env a m).1 = Except.ok txt)
    (h6 : env.summarize txt = Except.error e) :
    (process_file env m sk a s).1 = PFResult.err e
    ∧ (process_file env m sk a s).2.outFiles
        = s.outFiles ++ [transcription_name a.stem (toString s.clock)] := by
  have h2' : strLower a.ext ∈ SUPPORTED_EXTENSIONS := by simpa using h2
  have hgn : generate_notes (env.summarize txt) = Except.error e := by
    rw [h6]
    rfl
  have hpf : process_file env m sk a s = runPipeline env m a s := by
    simp [process_file, h1, h2', h3]
  rw [hpf]
  simp [runPipeline, h4, h5, hgn, cleanupWav_outFiles, withTempWav]

/-- An environment whose summarization engine always raises; everything
else succeeds, with a short (10 s) probed duration. -/
def envSummFail : Env where
  assetExists := fun _ => true
  probe := fun _ => some 10
  convertOk := fun _ => true
  extractOk := fun _ _ => true
  wholeText := fun _ => Except.ok "whole"
  segText := fun _ i => Except.ok (toString i)
  summarize := fun _ => Except.error (Err.summarization "api down")

/-- The empty initial processing state. -/
def pfs0 : PFState := { outFiles := [], convertedWavExists := false, deleted := [], clock := 0 }

/-- Concrete witness for C6: with a failing summarizer, the transcription
file is on disk, no notes file is, and the call reports the failure. -/
theorem c6_summarization_failure_witness :
    (process_file envSummFail 40 false assetW pfs0).1
        = PFResult.err (Err.summarization "api down")
    ∧ (process_file envSummFail 40 false assetW pfs0).2.outFiles
        = pfs0.outFiles ++ [transcription_name assetW.stem (toString pfs0.clock)] :=
  c6_summarization_failure envSummFail 40 false assetW pfs0 "whole"
    (Err.summarization "api down") rfl (by decide) rfl rfl rfl rfl

/-- C9: a non-canonical input's temporary converted wav is deleted once
transcription finishes, on every exit path of `process_file` that reaches
conversion, whatever the transcription outcome; a canonical (`.wav`)
input is passed through unconverted — nothing is converted and nothing is
deleted. -/
theorem c9_converted_wav_cleanup (env : Env) (m : ℕ) (sk : Bool) (a : Asset) (s : PFState) :
    (isTempWav a = true → env.assetExists a = true →
      SUPPORTED_EXTENSIONS.contains (strLower a.ext) = true →
      should_skip sk s.outFiles a.stem = false →
      env.convertOk a = true →
      convName a ∈ (process_file env m sk a s).2.deleted
      ∧ (process_file env m sk a s).2.convertedWavExists = false)
    ∧ (isTempWav a = false → s.convertedWavExists = false →
      (process_file env m sk a s).2.deleted = s.deleted
      ∧ (process_file env m sk a s).2.convertedWavExists = false) := by
  constructor
  · intro hT h1 h2 h3 hcv
    have h2' : strLower a.ext ∈ SUPPORTED_EXTENSIONS := by simpa using h2
    have hpf : process_file env m sk a s = runPipeline env m a s := by
      simp [process_file, h1, h2', h3]
    have hc : (isTempWav a && !env.convertOk a) = false := by simp [hT, hcv]
    rw [hpf]
    have hdel := cleanupWav_withTempWav_deleted_temp a { s with clock := s.clock + 1 } hT
    have hgone := cleanupWav_withTempWav_gone a { s with clock := s.clock + 1 }
    cases htr : (transcribe_audio env a m).1 with
    | error e => simp [runPipeline, hc, htr, hdel, hgone]
    | ok txt =>
      cases hgn : generate_notes (env.summarize txt) with
      | error e => simp [runPipeline, hc, htr, hgn, hdel, hgone]
      | ok notes => simp [runPipeline, hc, htr, hgn, hdel, hgone]
  · intro hT hwav
    cases g1 : env.assetExists a with
    | false =>
      have hpf : process_file env m sk a s = (PFResult.err Err.missingInput, s) := by
        simp [process_file, g1]
      rw [hpf]
      exact ⟨rfl, hwav⟩
    | true =>
      cases g2 : SUPPORTED_EXTENSIONS.contains (strLower a.ext) with
      | false =>
        have g2' : strLower a.ext ∉ SUPPORTED_EXTENSIONS := by simpa using g2
        have hpf : process_file env m sk a s = (PFResult.err Err.unsupportedFormat, s) := by
          simp [process_file, g1, g2']
        rw [hpf]
        exact ⟨rfl, hwav⟩
      | true =>
        have g2' : strLower a.ext ∈ SUPPORTED_EXTENSIONS := by simpa using g2
        cases g3 : should_skip sk s.outFiles a.stem with
        | true =>
          have hpf : process_file env m sk a s = (PFResult.skipped, s) := by
            simp [process_file, g1, g2', g3]
          rw [hpf]
          exact ⟨rfl, hwav⟩
        | false =>
          have hpf : process_file env m sk a s = runPipeline env m a s := by
            simp [process_file, g1, g2', g3]
          have hc : (isTempWav a && !env.convertOk a) = false := by simp [hT]
          have hdel := cleanupWav_withTempWav_deleted_canon a { s with clock := s.clock + 1 } hT
          have hgone := cleanupWav_withTempWav_gone a { s with clock := s.clock + 1 }
          rw [hpf]
          cases htr : (transcribe_audio env a m).1 with
          | error e => simp [runPipeline, hc, htr, hdel, hgone]
          | ok txt =>
            cases hgn : generate_notes (env.summarize txt) with
            | error e => simp [runPipeline, hc, htr, hgn, hdel, hgone]
            | ok notes => simp [runPipeline, hc, htr, hgn, hdel, hgone]

/-- Concrete witness for C9: processing an `.mp3` input deletes its
converted wav and leaves no temporary on disk. -/
theorem c9_converted_wav_cleanup_witness :
    convName assetW ∈ (process_file envW 40 false assetW pfs0).2.deleted
    ∧ (process_file envW 40 false assetW pfs0).2.convertedWavExists = false :=
  (c9_converted_wav_cleanup envW 40 false assetW pfs0).1 (by decide) rfl (by decide) rfl rfl

/-- C10: `process_file` returns the no-result value exactly when the asset
was skipped — the guards passed, the skip flag is set, and both kinds of
existing output are present; with `skip_existing = false` the call either
raises or returns exactly the freshly written transcription and notes
paths, both of which are on disk afterwards. -/
theorem c10_none_iff_skipped (env : Env) (m : ℕ) (sk : Bool) (a : Asset) (s : PFState) :
    ((process_file env m sk a s).1 = PFResult.skipped
      ↔ env.assetExists a = true
        ∧ SUPPORTED_EXTENSIONS.contains (strLower a.ext) = true
        ∧ should_skip sk s.outFiles a.stem = true)
    ∧ (sk = false →
        (∃ e, (process_file env m sk a s).1 = PFResult.err e)
        ∨ ((process_file env m sk a s).1
            = PFResult.ok (transcription_name a.stem (toString s.clock))
                (notes_name a.stem (toString s.clock))
          ∧ transcription_name a.stem (toString s.clock)
              ∈ (process_file env m sk a s).2.outFiles
          ∧ notes_name a.stem (toString s.clock)
              ∈ (process_file env m sk a s).2.outFiles)) := by
  constructor
  · cases g1 : env.assetExists a with
    | false =>
      have hpf : process_file env m sk a s = (PFResult.err Err.missingInput, s) := by
        simp [process_file, g1]
      rw [hpf]
      simp
    | true =>
      cases g2 : SUPPORTED_EXTENSIONS.contains (strLower a.ext) with
      | false =>
        have g2' : strLower a.ext ∉ SUPPORTED_EXTENSIONS := by simpa using g2
        have hpf : process_file env m sk a s = (PFResult.err Err.unsupportedFormat, s) := by
          simp [process_file, g1, g2']
        rw [hpf]
        simp
      | true =>
        have g2' : strLower a.ext ∈ SUPPORTED_EXTENSIONS := by simpa using g2
        cases g3 : should_skip sk s.outFiles a.stem with
        | true =>
          have hpf : process_file env m sk a s = (PFResult.skipped, s) := by
            simp [process_file, g1, g2', g3]
          rw [hpf]
          simp
        | false =>
          have hpf : process_file env m sk a s = runPipeline env m a s := by
            simp [process_file, g1, g2', g3]
          rw [hpf]
          constructor
          · intro hk
            exact absurd hk (runPipeline_not_skipped env m a s)
          · rintro ⟨-, -, hk⟩
            simp at hk
  · intro hsk
    cases g1 : env.assetExists a with
    | false =>
      left
      refine ⟨Err.missingInput, ?_⟩
      simp [process_file, g1]
    | true =>
      cases g2 : SUPPORTED_EXTENSIONS.contains (strLower a.ext) with
      | false =>
        left
        have g2' : strLower a.ext ∉ SUPPORTED_EXTENSIONS := by simpa using g2
        refine ⟨Err.unsupportedFormat, ?_⟩
        simp [process_file, g1, g2']
      | true =>
        have g2' : strLower a.ext ∈ SUPPORTED_EXTENSIONS := by simpa using g2
        have g3 : should_skip sk s.outFiles a.stem = false := by
          rw [hsk]
          simp [should_skip]
        have hpf : process_file env m sk a s = runPipeline env m a s := by
          simp [process_file, g1, g2', g3]
        cases hp : pipelineResult env a m with
        | error e =>
          left
          refine ⟨e, ?_⟩
          rw [hpf, runPipeline_result_kind, hp]
        | ok u =>
          cases u
          right
          obtain ⟨hc, txt, htr, notes, hgn⟩ := pipelineResult_ok_elim env a m hp
          rw [hpf, runPipeline_ok_eq env m a s txt notes hc htr hgn]
          refine ⟨rfl, ?_, ?_⟩
          · simp
          · simp

/-- Concrete witness for C10: with `skip_existing = false` on the all-ok
environment, the call returns both freshly written output paths. -/
theorem c10_none_iff_skipped_witness :
    (∃ e, (process_file envW 40 false assetW pfs0).1 = PFResult.err e)
    ∨ ((process_file envW 40 false assetW pfs0).1
        = PFResult.ok (transcription_name assetW.stem (toString pfs0.clock))
            (notes_name assetW.stem (toString pfs0.clock))
      ∧ transcription_name assetW.stem (toString pfs0.clock)
          ∈ (process_file envW 40 false assetW pfs0).2.outFiles
      ∧ notes_name assetW.stem (toString pfs0.clock)
          ∈ (process_file envW 40 false assetW pfs0).2.outFiles) :=
  (c10_none_iff_skipped envW 40 false assetW pfs0).2 rfl

/-- The scan enumeration (`app.py` lines 429-433): files whose lowercased
extension is supported and whose name does not end in the internal
transcoding-artifact marker `.converted.wav`. -/
def list_audio_files (dirFiles : List Asset) : List Asset :=
  dirFiles.filter
    (fun f => SUPPORTED_EXTENSIONS.contains (strLower f.ext)
      && !(strEnds ".converted.wav" f.name))

/-- Speech-engine handle bookkeeping of one folder scan: how many times a
`CanaryTranscriber` was constructed, and whether one is still open when
the scan returns. -/
structure EngineLog where
  acquired : ℕ
  openAtEnd : Bool
deriving DecidableEq, Repr

/-- Outcome of one `process_all_in_folder` scan. -/
structure ScanOut where
  processedAny : Bool
  results : List PFResult
  state : PFState
  log : EngineLog
deriving DecidableEq, Repr

/-- The per-asset loop of `process_all_in_folder` (`app.py` lines
440-453): each asset is processed with the shared transcriber, its
exception — if any — is caught at the per-asset boundary (`except
Exception`), and the loop continues with the next asset.  Returns one
outcome per asset in scan order, and the threaded state. -/
def scanFold (env : Env) (m : ℕ) (sk : Bool) :
    List Asset → PFState → List PFResult × PFState
  | [], s => ([], s)
  | a :: rest, s =>
    let step := process_file env m sk a s
    let restOut := scanFold env m sk rest step.2
    (step.1 :: restOut.1, restOut.2)

/-- Whether a per-asset outcome counts as newly processed
(`result is not None`, `app.py` lines 450-451): a skip or a caught
exception does not. -/
def isProcessed : PFResult → Bool
  | PFResult.ok _ _ => true
  | _ => false

/-- `process_all_in_folder` (`app.py` lines 418-456): enumerate the audio
files; with none, return `False` before any engine is loaded; otherwise
load the transcriber once, process every asset with it (failures caught
per asset), release it in the `finally` block, and report whether any
asset was newly processed. -/
def process_all_in_folder (env : Env) (m : ℕ) (sk : Bool) (dirFiles : List Asset)
    (s : PFState) : ScanOut :=
  let files := list_audio_files dirFiles
  if files.isEmpty then
    { processedAny := false, results := [], state := s,
      log := { acquired := 0, openAtEnd := false } }
  else
    let out := scanFold env m sk files s
    { processedAny := out.1.any (fun r => isProcessed r), results := out.1, state := out.2,
      log := { acquired := 1, openAtEnd := false } }

/-- The scan produces exactly one outcome per candidate asset: no earlier
asset's failure shortens the scan. -/
theorem scanFold_length (env : Env) (m : ℕ) (sk : Bool) (l : List Asset) :
    ∀ s : PFState, (scanFold env m sk l s).1.length = l.length := by
  induction l with
  | nil => intro s; rfl
  | cons a rest ih =>
    intro s
    simp [scanFold, ih]

/-- C7: an exception from one asset is caught at the per-asset boundary
and the scan still yields one outcome for every candidate (later assets
are attempted regardless of earlier failures); the speech-engine handle
is acquired exactly once per non-empty scan — not at all for an empty
one — and is never left open when the scan returns, whatever the
per-asset outcomes. -/
theorem c7_per_asset_isolation_engine (env : Env) (m : ℕ) (sk : Bool)
    (dirFiles : List Asset) (s : PFState) :
    ((process_all_in_folder env m sk dirFiles s).results.length
        = (list_audio_files dirFiles).length)
    ∧ (process_all_in_folder env m sk dirFiles s).log.openAtEnd = false
    ∧ (process_all_in_folder env m sk dirFiles s).log.acquired ≤ 1
    ∧ ((list_audio_files dirFiles).isEmpty = true →
        (process_all_in_folder env m sk dirFiles s).log.acquired = 0)
    ∧ ((list_audio_files dirFiles).isEmpty = false →
        (process_all_in_folder env m sk dirFiles s).log.acquired = 1) := by
  cases hne : (list_audio_files dirFiles).isEmpty with
  | true =>
    have hnil : list_audio_files dirFiles = [] := List.isEmpty_iff.mp hne
    simp [process_all_in_folder, hne, hnil]
  | false =>
    simp [process_all_in_folder, hne, scanFold_length]

/-- Concrete witness for C7: scanning a one-file folder acquires the
engine exactly once. -/
theorem c7_per_asset_isolation_engine_witness :
    (process_all_in_folder envW 40 true [assetW] pfs0).log.acquired = 1 :=
  (c7_per_asset_isolation_engine envW 40 true [assetW] pfs0).2.2.2.2 (by decide)

/-- An asset is settled for the next scan: either both of its outputs are
already on disk, or its very pipeline (a function of the oracles only)
cannot succeed. -/
def settled (env : Env) (m : ℕ) (s : PFState) (a : Asset) : Prop :=
  (hasTransOut s a ∧ hasNotesOut s a)
  ∨ ¬(env.assetExists a = true
      ∧ SUPPORTED_EXTENSIONS.contains (strLower a.ext) = true
      ∧ pipelineResult env a m = Except.ok ())

/-- Presence of a transcription output survives any growth of the output
directory. -/
theorem hasTransOut_mono (s s2 : PFState) (a : Asset)
    (hsub : ∀ x ∈ s.outFiles, x ∈ s2.outFiles) (h : hasTransOut s a) : hasTransOut s2 a := by
  rcases h with ⟨f, hf, hm⟩
  exact ⟨f, hsub f hf, hm⟩

/-- Presence of a notes output survives any growth of the output
directory. -/
theorem hasNotesOut_mono (s s2 : PFState) (a : Asset)
    (hsub : ∀ x ∈ s.outFiles, x ∈ s2.outFiles) (h : hasNotesOut s a) : hasNotesOut s2 a := by
  rcases h with ⟨f, hf, hm⟩
  exact ⟨f, hsub f hf, hm⟩

/-- Settledness survives any growth of the output directory. -/
theorem settled_mono (env : Env) (m : ℕ) (s s2 : PFState) (a : Asset)
    (hsub : ∀ x ∈ s.outFiles, x ∈ s2.outFiles) (h : settled env m s a) :
    settled env m s2 a := by
  rcases h with ⟨hT, hN⟩ | hnp
  · exact Or.inl ⟨hasTransOut_mono s s2 a hsub hT, hasNotesOut_mono s s2 a hsub hN⟩
  · exact Or.inr hnp

/-- The whole scan only ever appends to the output files. -/
theorem scanFold_outFiles_mono (env : Env) (m : ℕ) (sk : Bool) (l : List Asset) :
    ∀ s : PFState, ∀ x ∈ s.outFiles, x ∈ (scanFold env m sk l s).2.outFiles := by
  induction l with
  | nil => intro s x hx; exact hx
  | cons a rest ih =>
    intro s x hx
    simp only [scanFold]
    exact ih _ x (process_file_outFiles_mono env m sk a s x hx)

/-- After a successful run, both freshly written outputs match the base
title's patterns. -/
theorem process_file_ok_done (env : Env) (m : ℕ) (sk : Bool) (a : Asset) (s : PFState)
    (t n : String) (h : (process_file env m sk a s).1 = PFResult.ok t n) :
    hasTransOut (process_file env m sk a s).2 a
    ∧ hasNotesOut (process_file env m sk a s).2 a := by
  obtain ⟨-, -, -, ht, hn, hmt, hmn⟩ := process_file_ok_spec env m sk a s t n h
  constructor
  · refine ⟨t, hmt, ?_⟩
    rw [ht]
    exact matchesOut_built a.stem (toString s.clock) transcriptionSuffix
  · refine ⟨n, hmn, ?_⟩
    rw [hn]
    exact matchesOut_built a.stem (toString s.clock) notesSuffix

/-- One `process_file` call under `skip_existing = true` settles its own
asset: a success leaves both outputs, a skip certifies they were there,
and an error certifies the pipeline cannot succeed. -/
theorem settled_after_process (env : Env) (m : ℕ) (a : Asset) (s : PFState) :
    settled env m (process_file env m true a s).2 a := by
  cases hr : (process_file env m true a s).1 with
  | skipped =>
    obtain ⟨hst, hT, hN⟩ := process_file_skipped_spec env m true a s hr
    rw [hst]
    exact Or.inl ⟨hT, hN⟩
  | ok t n =>
    obtain ⟨hT, hN⟩ := process_file_ok_done env m true a s t n hr
    exact Or.inl ⟨hT, hN⟩
  | err e =>
    exact Or.inr (process_file_err_elim env m true a s e hr)

/-- Settledness of one asset survives the processing of another. -/
theorem settled_preserved (env : Env) (m : ℕ) (sk : Bool) (b : Asset) (s : PFState)
    (a : Asset) (h : settled env m s a) :
    settled env m (process_file env m sk b s).2 a :=
  settled_mono env m s _ a (process_file_outFiles_mono env m sk b s) h

/-- After a full scan under `skip_existing = true`, every scanned asset is
settled in the final state. -/
theorem scanFold_settles (env : Env) (m : ℕ) (l : List Asset) :
    ∀ s : PFState, ∀ a ∈ l, settled env m ((scanFold env m true l s).2) a := by
  induction l with
  | nil =>
    intro s a ha
    simp at ha
  | cons b rest ih =>
    intro s a ha
    rcases List.mem_cons.mp ha with rfl | hmem
    · have h1 := settled_after_process env m a s
      simp only [scanFold]
      exact settled_mono env m _ _ a (scanFold_outFiles_mono env m true rest _) h1
    · simp only [scanFold]
      exact ih _ a hmem

/-- A settled asset is never newly processed by a later
`skip_existing = true` call. -/
theorem settled_no_ok (env : Env) (m : ℕ) (a : Asset) (s2 : PFState)
    (h : settled env m s2 a) (t n : String) :
    (process_file env m true a s2).1 ≠ PFResult.ok t n := by
  intro hok
  obtain ⟨h1, h2, hp, -, -, -, -⟩ := process_file_ok_spec env m true a s2 t n hok
  rcases h with ⟨hT, hN⟩ | hnp
  · have hsk := process_file_skips_when_done env m a s2 h1 h2 hT hN
    rw [hok] at hsk
    simp at hsk
  · exact hnp ⟨h1, h2, hp⟩

/-- A scan under `skip_existing = true` starting from a state in which all
its assets are settled processes none of them. -/
theorem scanFold_no_processed (env : Env) (m : ℕ) (l : List Asset) :
    ∀ s : PFState, (∀ a ∈ l, settled env m s a) →
      (scanFold env m true l s).1.any (fun r => isProcessed r) = false := by
  induction l with
  | nil => intro s _; rfl
  | cons b rest ih =>
    intro s hall
    have hb : isProcessed (process_file env m true b s).1 = false := by
      cases hr : (process_file env m true b s).1 with
      | ok t n => exact absurd hr (settled_no_ok env m b s (hall b (by simp)) t n)
      | skipped => rfl
      | err e => rfl
    have hrest : ∀ a ∈ rest, settled env m (process_file env m true b s).2 a :=
      fun a ha => settled_preserved env m true b s a (hall a (by simp [ha]))
    simp [scanFold, List.any_cons, hb, ih _ hrest]

/-- C3: running the folder scan a second time with `skip_existing = true`
over an unchanged directory processes zero assets — the second scan
reports no new work: every asset fully processed (or already skipped) in
the first scan has both outputs on disk and is skipped, and an asset that
raised in the first scan fails or is skipped again, never yielding a
processed outcome. -/
theorem c3_second_scan_idempotent (env : Env) (m : ℕ) (dirFiles : List Asset)
    (s : PFState) :
    (process_all_in_folder env m true dirFiles
        (process_all_in_folder env m true dirFiles s).state).processedAny = false := by
  cases hne : (list_audio_files dirFiles).isEmpty with
  | true => simp [process_all_in_folder, hne]
  | false =>
    have hstate : (process_all_in_folder env m true dirFiles s).state
        = (scanFold env m true (list_audio_files dirFiles) s).2 := by
      simp [process_all_in_folder, hne]
    have hsettled : ∀ a ∈ list_audio_files dirFiles,
        settled env m ((scanFold env m true (list_audio_files dirFiles) s).2) a :=
      scanFold_settles env m (list_audio_files dirFiles) s
    have hzero := scanFold_no_processed env m (list_audio_files dirFiles)
      ((scanFold env m true (list_audio_files dirFiles) s).2) hsettled
    rw [hstate]
    simpa [process_all_in_folder, hne] using hzero
